import Mathlib

/-!
Verification of the audarma view-translation cache and batch gap-filling
engine. The definitions below are a shallow embedding of the repository's
TypeScript source:

* the view translation coordinator (`ViewTranslationProvider`,
  `translateView`, `getTranslation`, `isItemTranslating`);
* the batch CLI engine (`discoverContent`, `findTranslationGaps`,
  `translateBatch`, `runTranslation` in `cli/translate.ts`).

JavaScript strings are embedded as Lean `String`; the SHA-256 digest is an
abstract parameter `hash : String → String` (the code only ever compares
digests for equality, and the one digest fact a claim needs — a SHA-256 hex
digest has 64 characters — is taken as an explicit hypothesis).
`Array.prototype.sort()` (lexicographic by code unit) is embedded as
insertion sort over a code-point-lexicographic order, which agrees with the
JavaScript order on the code points involved here.
-/

namespace Audarma

/-- Lexicographic comparison of character lists by code point, as a
Boolean; this is the order `Array.prototype.sort()` uses on the strings
appearing in this development. -/
def charListLe : List Char → List Char → Bool
  | [], _ => true
  | _ :: _, [] => false
  | a :: as, b :: bs =>
    if a.toNat < b.toNat then true
    else if b.toNat < a.toNat then false
    else charListLe as bs

/-- The sort relation on strings used by the view fingerprint. -/
def strLeR : String → String → Prop := fun a b => charListLe a.data b.data = true

instance : DecidableRel strLeR := fun _ _ => inferInstanceAs (Decidable (_ = true))

instance : IsTotal String strLeR := by
  constructor
  intro a b
  show charListLe a.data b.data = true ∨ charListLe b.data a.data = true
  generalize a.data = x
  generalize b.data = y
  induction x generalizing y with
  | nil => exact Or.inl rfl
  | cons c cs ih =>
    cases y with
    | nil => exact Or.inr rfl
    | cons d ds =>
      rcases Nat.lt_trichotomy c.toNat d.toNat with h | h | h
      · exact Or.inl (by simp [charListLe, h])
      · rcases ih ds with hle | hle
        · exact Or.inl (by simp [charListLe, h, hle])
        · exact Or.inr (by simp [charListLe, h.symm, hle])
      · exact Or.inr (by simp [charListLe, h])

instance : IsTrans String strLeR := by
  constructor
  intro a b c
  show charListLe a.data b.data = true → charListLe b.data c.data = true →
    charListLe a.data c.data = true
  generalize a.data = x
  generalize b.data = y
  generalize c.data = z
  induction x generalizing y z with
  | nil => intro _ _; rfl
  | cons p ps ih =>
    cases y with
    | nil => intro h; cases h
    | cons q qs =>
      cases z with
      | nil => intro _ h; cases h
      | cons r rs =>
        intro h1 h2
        rcases Nat.lt_trichotomy p.toNat q.toNat with hpq | hpq | hpq
        · rcases Nat.lt_trichotomy q.toNat r.toNat with hqr | hqr | hqr
          · simp [charListLe, show p.toNat < r.toNat by omega]
          · simp [charListLe, show p.toNat < r.toNat by omega]
          · simp [charListLe, show ¬ q.toNat < r.toNat by omega, hqr] at h2
        · rcases Nat.lt_trichotomy q.toNat r.toNat with hqr | hqr | hqr
          · simp [charListLe, show p.toNat < r.toNat by omega]
          · have h1' : charListLe ps qs = true := by
              simpa [charListLe, show ¬ p.toNat < q.toNat by omega,
                show ¬ q.toNat < p.toNat by omega] using h1
            have h2' : charListLe qs rs = true := by
              simpa [charListLe, show ¬ q.toNat < r.toNat by omega,
                show ¬ r.toNat < q.toNat by omega] using h2
            simp [charListLe, show ¬ p.toNat < r.toNat by omega,
              show ¬ r.toNat < p.toNat by omega]
            exact ih qs rs h1' h2'
          · simp [charListLe, show ¬ q.toNat < r.toNat by omega, hqr] at h2
        · simp [charListLe, show ¬ p.toNat < q.toNat by omega, hpq] at h1

instance : IsAntisymm String strLeR := by
  constructor
  intro a b
  show charListLe a.data b.data = true → charListLe b.data a.data = true → a = b
  intro h1 h2
  apply String.ext
  revert h1 h2
  generalize a.data = x
  generalize b.data = y
  induction x generalizing y with
  | nil =>
    cases y with
    | nil => intro _ _; rfl
    | cons d ds => intro _ h; cases h
  | cons c cs ih =>
    cases y with
    | nil => intro h _; cases h
    | cons d ds =>
      intro h1 h2
      rcases Nat.lt_trichotomy c.toNat d.toNat with h | h | h
      · simp [charListLe, show ¬ d.toNat < c.toNat by omega, h] at h2
      · have hcd : c = d := by
          apply Char.ext; apply UInt32.ext; exact h
        subst hcd
        have h1' : charListLe cs ds = true := by
          simpa [charListLe] using h1
        have h2' : charListLe ds cs = true := by
          simpa [charListLe] using h2
        rw [ih ds h1' h2']
      · simp [charListLe, show ¬ c.toNat < d.toNat by omega, h] at h1

/-- Items passed to the view coordinator and the provider
(`TranslationItem` in `src/types`). -/
structure TranslationItem where
  contentType : String
  contentId : String
  text : String
deriving DecidableEq

/-- Rows returned by the store client `getCachedTranslations` (the
`DatabaseAdapter` contract in `src/types/content-sources.ts`). -/
structure CachedRow where
  content_type : String
  content_id : String
  translated_text : String
  source_hash : String
deriving DecidableEq

/-- Records passed to the store client `saveTranslations`.
`translated_text` is an `Option` because both writers index into the
provider's result array unchecked (`translatedTexts[idx]` /
`translations[idx]`), which in JavaScript yields `undefined` (`none` here)
when the provider returned fewer strings than items. -/
structure SavedRecord where
  content_type : String
  content_id : String
  locale : String
  original_text : String
  translated_text : Option String
  source_hash : String
deriving DecidableEq

/-- Per-view localStorage metadata (`ViewTranslationMetadata` in
`src/types`). `lastTranslated` is an uninterpreted timestamp string. -/
structure ViewTranslationMetadata where
  contentHash : String
  lastTranslated : String
  locale : String
  itemCount : Nat
deriving DecidableEq

/-- Takes the first `n` characters of a string: `s.substring(0, n)` on a
JavaScript string whose code points are in the BMP. -/
def strTake (n : Nat) (s : String) : String := ⟨s.data.take n⟩

/-- The per-item encoding used by the view fingerprint,
`` `${item.contentType}:${item.contentId}:${item.text}` ``
(view coordinator line 105). -/
def encodeItem (i : TranslationItem) : String :=
  i.contentType ++ ":" ++ i.contentId ++ ":" ++ i.text

/-- `Array.prototype.sort()` on an array of strings. -/
def sortStrings (l : List String) : List String := List.insertionSort strLeR l

/-- `Array.prototype.join(sep)`. -/
def joinSep (sep : String) : List String → String
  | [] => ""
  | [s] => s
  | s :: r :: rest => s ++ sep ++ joinSep sep (r :: rest)

/-- The pre-digest content string of a view: encode each item, sort, join
with the separator `"|"` (view coordinator lines 104-107). -/
def contentString (items : List TranslationItem) : String :=
  joinSep "|" (sortStrings (items.map encodeItem))

/-- The view fingerprint: digest of the content string truncated to 16
characters, `crypto.SHA256(contentString).toString().substring(0, 16)`
(view coordinator line 108). The digest is an abstract parameter. -/
def fingerprintView (hash : String → String) (items : List TranslationItem) : String :=
  strTake 16 (hash (contentString items))

/-- The source hash the view coordinator stores when saving a translation:
`crypto.SHA256(item.text).toString()` — the full digest, untruncated (view
coordinator line 196). -/
def viewSourceHash (hash : String → String) (text : String) : String := hash text

/-- The source hash the batch engine computes during discovery:
`createHash('sha256').update(item.text).digest('hex').substring(0, 16)` —
truncated to 16 characters (`cli/translate.ts` lines 64-68). -/
def cliSourceHash (hash : String → String) (text : String) : String :=
  strTake 16 (hash text)

/-- A concrete stand-in digest sharing SHA-256's one relevant property, a
64-character hex output; used to instantiate hash-generic theorems. -/
def digest64stub : String → String := fun _ => ⟨List.replicate 64 'a'⟩

/-- A concrete injective stand-in digest for counterexamples that do not
depend on the digest's output length. -/
def hash0 : String → String := fun s => "#" ++ s

/-- The cache key of an item, `` `${contentType}:${contentId}` ``. -/
def itemKey (it : TranslationItem) : String := it.contentType ++ ":" ++ it.contentId

/-- The cache key of a returned store row. -/
def rowKey (r : CachedRow) : String := r.content_type ++ ":" ++ r.content_id

/-- Lookup in a JavaScript `Map` built from an entry array (later entries
overwrite earlier ones), also the lookup in a plain object whose keys were
assigned in list order. -/
def jsMapGet {α : Type} (entries : List (String × α)) (key : String) : Option α :=
  (entries.reverse.find? (fun e => e.1 = key)).map (fun e => e.2)

/-- JavaScript truthiness of `string | undefined`: `undefined` and the
empty string are falsy. -/
def truthy : Option String → Bool
  | none => false
  | some t => !(t == "")

/-- The entry array of the `cachedMap` the view coordinator builds from the
store's rows (view coordinator lines 158-160). -/
def rowEntries (rows : List CachedRow) : List (String × String) :=
  rows.map (fun r => (rowKey r, r.translated_text))

/-- The items the view coordinator classifies as needing translation: those
whose key has no truthy entry in `cachedMap` (view coordinator lines
163-173). The stored `source_hash` plays no part in this partition. -/
def viewUncached (items : List TranslationItem) (rows : List CachedRow) :
    List TranslationItem :=
  items.filter (fun it => !(truthy (jsMapGet (rowEntries rows) (itemKey it))))

/-- The cache entries contributed by store hits (view coordinator lines
164-170): one entry per item whose lookup is truthy. -/
def viewHitEntries (items : List TranslationItem) (rows : List CachedRow) :
    List (String × Option String) :=
  items.filterMap (fun it =>
    let c := jsMapGet (rowEntries rows) (itemKey it)
    if truthy c then some (itemKey it, c) else none)

/-- The cache entries contributed by freshly translated items (view
coordinator lines 202-205): `newCache[key] = translatedTexts[idx]`, where an
out-of-range index yields `undefined` (`none`). -/
def viewTransEntries (uncached : List TranslationItem) (ts : List String) :
    List (String × Option String) :=
  uncached.mapIdx (fun idx it => (itemKey it, ts[idx]?))

/-- The records the view coordinator saves (view coordinator lines 190-197):
positional pairing with the provider's result and a full, untruncated
source hash of the item's text. -/
def mkViewSaveRecords (hash : String → String) (uncached : List TranslationItem)
    (ts : List String) (locale : String) : List SavedRecord :=
  uncached.mapIdx (fun idx it =>
    ⟨it.contentType, it.contentId, locale, it.text, ts[idx]?, viewSourceHash hash it.text⟩)

/-- Observable outcome of one sync cycle of the view coordinator. -/
structure ViewCycleResult where
  cache : List (String × Option String)
  storeReads : Nat
  providerCalls : Nat
  saved : List SavedRecord
  savedMetadata : Option ViewTranslationMetadata
deriving DecidableEq

/-- One sync cycle of the view coordinator (`translateView` plus the
short-circuit in the effect body, view coordinator lines 94-262):

* locale equal to the default locale, or no items: settle with an empty
  cache, no store or provider call (lines 96-100);
* localStorage metadata matching the fresh fingerprint and item count: one
  store read, cache loaded verbatim from the returned rows, no provider
  call and no save (lines 114-129 and 233-259, happy path);
* otherwise: one store read, partition into hits and misses by truthy
  lookup, one provider call for the misses (if any), positional pairing,
  save, and metadata write (lines 149-221).

`dbRows` is the store's response to `getCachedTranslations(items, locale)`;
`provider` is `llm.translateBatch`. Store and provider failures are not
modelled: the cycle's `catch` swallows them without touching the cache. -/
def translateViewCycle (hash : String → String) (items : List TranslationItem)
    (locale defaultLocale : String) (metadata : Option ViewTranslationMetadata)
    (dbRows : List CachedRow)
    (provider : List TranslationItem → String → String → List String) :
    ViewCycleResult :=
  if locale = defaultLocale ∨ items = [] then ⟨[], 0, 0, [], none⟩
  else
    let contentHash := fingerprintView hash items
    let fastPath : Bool := match metadata with
      | some m => m.contentHash == contentHash && m.itemCount == items.length
      | none => false
    if fastPath then
      ⟨dbRows.map (fun r => (rowKey r, some r.translated_text)), 1, 0, [], none⟩
    else
      let uncached := viewUncached items dbRows
      let base := viewHitEntries items dbRows
      let meta : ViewTranslationMetadata := ⟨contentHash, "", locale, items.length⟩
      if uncached = [] then ⟨base, 1, 0, [], some meta⟩
      else
        let ts := provider uncached defaultLocale locale
        ⟨base ++ viewTransEntries uncached ts, 1, 1,
          mkViewSaveRecords hash uncached ts locale, some meta⟩

/-- The per-item query surface `getTranslation` (view coordinator lines
264-268): the fallback at the default locale, otherwise
`cache[key] || fallback`. -/
def getTranslation (locale defaultLocale : String)
    (cache : List (String × Option String)) (contentType contentId fallback : String) :
    String :=
  if locale = defaultLocale then fallback
  else
    match jsMapGet cache (contentType ++ ":" ++ contentId) with
    | some (some t) => if t = "" then fallback else t
    | _ => fallback

/-- The per-item query surface `isItemTranslating` (view coordinator lines
270-274): `isTranslating && !cache[key]` away from the default locale. -/
def isItemTranslating (locale defaultLocale : String) (isTranslating : Bool)
    (cache : List (String × Option String)) (contentType contentId : String) : Bool :=
  if locale = defaultLocale then false
  else isTranslating && !(truthy ((jsMapGet cache (contentType ++ ":" ++ contentId)).getD none))

/-- The cache visible between the moment the effect re-runs for a new
locale and the first state update of the new cycle. The effect body clears
the cache synchronously only in its short-circuit branch (view coordinator
lines 96-99); on the translating path the first `setCache` happens only
after the store read and provider call resolve (lines 212 and 245), so
until then `getTranslation` still reads the previous locale's cache. -/
def effectSyncPrefixCache (locale defaultLocale : String)
    (items : List TranslationItem) (prevCache : List (String × Option String)) :
    List (String × Option String) :=
  if locale = defaultLocale ∨ items = [] then [] else prevCache

/-- Content items discovered by the CLI (`DiscoveredContent` in
`src/types/content-sources.ts`). -/
structure DiscoveredContent where
  contentType : String
  contentId : String
  text : String
  sourceHash : String
deriving DecidableEq

/-- A translation gap (`TranslationGap` in `src/types/content-sources.ts`). -/
structure TranslationGap where
  contentType : String
  contentId : String
  text : String
  sourceHash : String
  missingLocales : List String
deriving DecidableEq

/-- A persisted store row, as visible to `getCachedTranslations` reads
(the `content_translations` table). -/
structure StoreRow where
  content_type : String
  content_id : String
  locale : String
  original_text : String
  translated_text : String
  source_hash : String
deriving DecidableEq

/-- Content discovery (`discoverContent`, `cli/translate.ts` lines 37-91):
every item the store enumerates, minus excluded content types, with a
truncated source hash. `allItems` is the store's
`getAllTranslatableContent` response. -/
def discoverContent (excludeTypes : List String) (allItems : List TranslationItem)
    (hash : String → String) : List DiscoveredContent :=
  allItems.filterMap (fun it =>
    if it.contentType ∈ excludeTypes then none
    else some ⟨it.contentType, it.contentId, it.text, cliSourceHash hash it.text⟩)

/-- The store client's `getCachedTranslations(items, targetLocale)`
(contract of `src/types/content-sources.ts`): exactly the rows whose
`(content_type, content_id)` is among the requested items and whose locale
equals the requested locale. -/
def getCachedTranslations (store : List StoreRow) (items : List TranslationItem)
    (locale : String) : List CachedRow :=
  store.filterMap (fun r =>
    if r.locale = locale ∧ ∃ it ∈ items, it.contentType = r.content_type ∧
        it.contentId = r.content_id then
      some ⟨r.content_type, r.content_id, r.translated_text, r.source_hash⟩
    else none)

/-- The candidate locale list of `findTranslationGaps`
(`cli/translate.ts` line 105): the single `--locale` option, or every
configured locale. -/
def targetLocalesOf (locales : List String) (targetLocale : Option String) :
    List String :=
  match targetLocale with
  | some t => [t]
  | none => locales

/-- The single store read of `findTranslationGaps` (`cli/translate.ts`
lines 108-115): the cache is queried for `targetLocales[0]` only, and the
response is reused across every candidate locale. -/
def gapQueryRows (content : List DiscoveredContent) (locales : List String)
    (store : List StoreRow) (targetLocale : Option String) : List CachedRow :=
  match (targetLocalesOf locales targetLocale).head? with
  | some l0 =>
      getCachedTranslations store
        (content.map (fun (c : DiscoveredContent) =>
          (⟨c.contentType, c.contentId, c.text⟩ : TranslationItem))) l0
  | none => []

/-- Gap finding (`findTranslationGaps`, `cli/translate.ts` lines 96-168).
The store is queried once, for `targetLocales[0]` only (with an empty
locale list the query locale is `undefined` and matches no row), and the
single response is reused while checking every candidate locale. An item
is missing a locale when no fetched row matches its key (`find` ignores
the row's locale) or the first matching row's `source_hash` differs from
the freshly computed one (line 140). -/
def findTranslationGaps (content : List DiscoveredContent) (locales : List String)
    (store : List StoreRow) (targetLocale : Option String) : List TranslationGap :=
  let targetLocales := targetLocalesOf locales targetLocale
  let cachedTranslations := gapQueryRows content locales store targetLocale
  content.filterMap (fun item =>
    let missingLocales := targetLocales.filter (fun _loc =>
      match cachedTranslations.find? (fun (c : CachedRow) =>
          c.content_type == item.contentType && c.content_id == item.contentId) with
      | none => true
      | some c => !(c.source_hash == item.sourceHash))
    if missingLocales = [] then none
    else some ⟨item.contentType, item.contentId, item.text, item.sourceHash,
      missingLocales⟩)

/-- The `TranslationItem` view of a gap (`cli/translate.ts` lines 199-203). -/
def toItem (g : TranslationGap) : TranslationItem := ⟨g.contentType, g.contentId, g.text⟩

/-- The records one CLI batch saves (`cli/translate.ts` lines 214-221):
positional pairing with the provider's result (`translations[idx]`, which
is `undefined` — `none` — past its end) and the gap's truncated source
hash. -/
def mkCliSaveRecords (batch : List TranslationGap) (ts : List String)
    (locale : String) : List SavedRecord :=
  batch.mapIdx (fun idx g =>
    ⟨g.contentType, g.contentId, locale, g.text, ts[idx]?, g.sourceHash⟩)

/-- Structural worker for `chunks`; the fuel argument only serves
termination and never runs out when it starts at the list's length and the
batch size is positive. -/
def chunksGo {α : Type} (fuel n : Nat) (l : List α) : List (List α) :=
  match fuel with
  | 0 => []
  | fuel + 1 =>
    if l.isEmpty ∨ n = 0 then []
    else l.take n :: chunksGo fuel n (l.drop n)

/-- Fixed-size slicing of the per-locale work list (`cli/translate.ts`
lines 190-193). A batch size of zero, which would loop forever in the
source, yields no batches here. -/
def chunks {α : Type} (n : Nat) (l : List α) : List (List α) :=
  chunksGo l.length n l

/-- Observable outcome of the per-locale batch loop: the loop's result (a
running total of `translations.length`, `cli/translate.ts` line 225, or the
propagated provider error), the records saved so far, and the number of
provider calls made. -/
structure BatchRunOut (ε : Type) where
  outcome : Except ε Nat
  writes : List SavedRecord
  calls : Nat

/-- The sequential batch loop of `translateBatch` (`cli/translate.ts` lines
192-231): per batch, one provider call then one save; a provider error is
rethrown immediately, leaving the records already saved in place. -/
def cliRunBatches {ε : Type}
    (provider : List TranslationItem → String → String → Except ε (List String))
    (locale sourceLocale : String) :
    List (List TranslationGap) → Nat → List SavedRecord → Nat → BatchRunOut ε
  | [], total, writes, calls => ⟨.ok total, writes, calls⟩
  | b :: rest, total, writes, calls =>
    match provider (b.map toItem) sourceLocale locale with
    | .error e => ⟨.error e, writes, calls + 1⟩
    | .ok ts =>
        cliRunBatches provider locale sourceLocale rest (total + ts.length)
          (writes ++ mkCliSaveRecords b ts locale) (calls + 1)

/-- `translateBatch` (`cli/translate.ts` lines 173-234): filter the gaps
to those missing `locale`, slice into fixed-size batches, and run them
sequentially. -/
def cliTranslateBatch {ε : Type} (gaps : List TranslationGap)
    (locale sourceLocale : String) (batchSize : Nat)
    (provider : List TranslationItem → String → String → Except ε (List String)) :
    BatchRunOut ε :=
  let itemsForLocale := gaps.filter (fun g => decide (locale ∈ g.missingLocales))
  if itemsForLocale = [] then (⟨.ok 0, [], 0⟩ : BatchRunOut ε)
  else cliRunBatches provider locale sourceLocale (chunks batchSize itemsForLocale) 0 [] 0

/-- The records a single successful batch saves (empty for a failing
batch); used to state what survives an aborted run. -/
def savedOfBatch {ε : Type}
    (provider : List TranslationItem → String → String → Except ε (List String))
    (locale sourceLocale : String) (b : List TranslationGap) : List SavedRecord :=
  match provider (b.map toItem) sourceLocale locale with
  | .ok ts => mkCliSaveRecords b ts locale
  | .error _ => []

/-- CLI configuration fields used by `runTranslation`
(`AudarCLIConfig`). -/
structure RunConfig where
  locales : List String
  excludeTypes : List String
  sourceLocale : Option String
  batchSize : Option Nat

/-- CLI options used by `runTranslation` (`CLIOptions`). -/
structure RunOptions where
  dryRun : Bool
  locale : Option String

/-- Observable outcome of a whole `runTranslation` invocation. -/
structure RunResult (ε : Type) where
  outcome : Except ε Unit
  providerCalls : Nat
  writes : List SavedRecord
  dryRunReport : List (String × Nat)
  translatedTotal : Nat

/-- The per-locale loop of `runTranslation` (`cli/translate.ts` lines
289-299): run `translateBatch` for each target locale in turn, aborting on
the first error while keeping earlier locales' saved records. -/
def runLocales {ε : Type} (gaps : List TranslationGap) (sourceLocale : String)
    (batchSize : Nat)
    (provider : List TranslationItem → String → String → Except ε (List String)) :
    List String → Nat → List SavedRecord → Nat → RunResult ε
  | [], total, writes, calls => ⟨.ok (), calls, writes, [], total⟩
  | l :: rest, total, writes, calls =>
    let out := cliTranslateBatch gaps l sourceLocale batchSize provider
    match out.outcome with
    | .error e => ⟨.error e, calls + out.calls, writes ++ out.writes, [], total⟩
    | .ok n => runLocales gaps sourceLocale batchSize provider rest (total + n)
        (writes ++ out.writes) (calls + out.calls)

/-- `runTranslation` (`cli/translate.ts` lines 239-311): discovery, gap
finding, then either the dry-run report (lines 271-280, computed and
returned with no provider call and no save) or the per-locale translation
loop. Early returns with no content or no gaps make no provider call and
no save either. -/
def runTranslation {ε : Type} (config : RunConfig) (options : RunOptions)
    (allItems : List TranslationItem) (store : List StoreRow)
    (provider : List TranslationItem → String → String → Except ε (List String))
    (hash : String → String) : RunResult ε :=
  let content := discoverContent config.excludeTypes allItems hash
  if content = [] then ⟨.ok (), 0, [], [], 0⟩
  else
    let gaps := findTranslationGaps content config.locales store options.locale
    if gaps = [] then ⟨.ok (), 0, [], [], 0⟩
    else
      let targetLocales := targetLocalesOf config.locales options.locale
      if options.dryRun then
        ⟨.ok (), 0, [],
          targetLocales.map (fun l =>
            (l, (gaps.filter (fun g => decide (l ∈ g.missingLocales))).length)), 0⟩
      else
        runLocales gaps (config.sourceLocale.getD "en") (config.batchSize.getD 20)
          provider targetLocales 0 [] 0

/-- Items whose fields stay clear of the two separator characters the
fingerprint encoding uses without escaping: no `:` in the identity fields
and no `|` anywhere. The source does not enforce this. -/
def GoodItem (i : TranslationItem) : Prop :=
  (':' ∉ i.contentType.data) ∧ (':' ∉ i.contentId.data) ∧
    ('|' ∉ i.contentType.data) ∧ ('|' ∉ i.contentId.data) ∧ ('|' ∉ i.text.data)

instance (i : TranslationItem) : Decidable (GoodItem i) := by
  unfold GoodItem; infer_instance

theorem append_cons_left_inj {c : Char} :
    ∀ {a a' b b' : List Char}, c ∉ a → c ∉ a' →
      a ++ c :: b = a' ++ c :: b' → a = a' ∧ b = b' := by
  intro a
  induction a with
  | nil =>
    intro a' b b' _ ha' heq
    cases a' with
    | nil => simpa using heq
    | cons x xs =>
      simp only [List.nil_append, List.cons_append, List.cons.injEq] at heq
      exact absurd (heq.1 ▸ List.mem_cons_self x xs) ha'
  | cons x xs ih =>
    intro a' b b' ha ha' heq
    cases a' with
    | nil =>
      simp only [List.cons_append, List.nil_append, List.cons.injEq] at heq
      exact absurd (heq.1 ▸ List.mem_cons_self x xs) ha
    | cons y ys =>
      simp only [List.cons_append, List.cons.injEq] at heq
      have hx : c ∉ xs := fun hm => ha (List.mem_cons_of_mem x hm)
      have hy : c ∉ ys := fun hm => ha' (List.mem_cons_of_mem y hm)
      obtain ⟨h1, h2⟩ := ih hx hy heq.2
      exact ⟨by rw [heq.1, h1], h2⟩

theorem encodeItem_data (i : TranslationItem) :
    (encodeItem i).data =
      i.contentType.data ++ ':' :: (i.contentId.data ++ ':' :: i.text.data) := by
  have hc : (":" : String).data = [':'] := rfl
  simp [encodeItem, String.data_append, hc]

theorem encodeItem_data_ne_nil (i : TranslationItem) : (encodeItem i).data ≠ [] := by
  rw [encodeItem_data]
  intro h
  have : ':' ∈ ([] : List Char) := by
    rw [← h]
    exact List.mem_append_right _ (List.mem_cons_self _ _)
  simpa using this

theorem pipe_not_mem_encode {i : TranslationItem} (h : GoodItem i) :
    '|' ∉ (encodeItem i).data := by
  obtain ⟨_, _, h3, h4, h5⟩ := h
  rw [encodeItem_data]
  intro hm
  rcases List.mem_append.mp hm with hm | hm
  · exact h3 hm
  · rcases List.mem_cons.mp hm with hm | hm
    · cases hm
    · rcases List.mem_append.mp hm with hm | hm
      · exact h4 hm
      · rcases List.mem_cons.mp hm with hm | hm
        · cases hm
        · exact h5 hm

theorem encodeItem_inj_good {i j : TranslationItem} (hi : GoodItem i)
    (hj : GoodItem j) (heq : encodeItem i = encodeItem j) : i = j := by
  have hd : (encodeItem i).data = (encodeItem j).data := by rw [heq]
  rw [encodeItem_data, encodeItem_data] at hd
  obtain ⟨h1, h2⟩ := append_cons_left_inj hi.1 hj.1 hd
  obtain ⟨h3, h4⟩ := append_cons_left_inj hi.2.1 hj.2.1 h2
  cases i with
  | mk t1 c1 x1 =>
    cases j with
    | mk t2 c2 x2 =>
      simp only at h1 h3 h4
      rw [TranslationItem.mk.injEq]
      exact ⟨String.ext h1, String.ext h3, String.ext h4⟩

theorem joinSep_cons_cons (s r : String) (rest : List String) :
    joinSep "|" (s :: r :: rest) = s ++ "|" ++ joinSep "|" (r :: rest) := rfl

theorem joinSep_pipe_inj :
    ∀ (L1 L2 : List String),
      (∀ s ∈ L1, s.data ≠ [] ∧ '|' ∉ s.data) →
      (∀ s ∈ L2, s.data ≠ [] ∧ '|' ∉ s.data) →
      joinSep "|" L1 = joinSep "|" L2 → L1 = L2 := by
  have hpd : ("|" : String).data = ['|'] := rfl
  intro L1
  induction L1 with
  | nil =>
    intro L2 _ hg2 heq
    cases L2 with
    | nil => rfl
    | cons s2 r2 =>
      cases r2 with
      | nil =>
        exact absurd (congrArg String.data heq.symm) (hg2 s2 (List.mem_cons_self _ _)).1
      | cons r2h r2t =>
        rw [joinSep_cons_cons] at heq
        have hd := congrArg String.data heq
        simp only [String.data_append, hpd] at hd
        have hd2 : (s2.data ++ ['|']) ++ (joinSep "|" (r2h :: r2t)).data = [] := hd.symm
        obtain ⟨hA, _⟩ := List.append_eq_nil.mp hd2
        obtain ⟨_, hB⟩ := List.append_eq_nil.mp hA
        cases hB
  | cons s1 r1 ih =>
    intro L2 hg1 hg2 heq
    cases L2 with
    | nil =>
      cases r1 with
      | nil =>
        exact absurd (congrArg String.data heq) (hg1 s1 (List.mem_cons_self _ _)).1
      | cons r1h r1t =>
        rw [joinSep_cons_cons] at heq
        have hd := congrArg String.data heq
        simp only [String.data_append, hpd] at hd
        have hd2 : (s1.data ++ ['|']) ++ (joinSep "|" (r1h :: r1t)).data = [] := hd
        obtain ⟨hA, _⟩ := List.append_eq_nil.mp hd2
        obtain ⟨_, hB⟩ := List.append_eq_nil.mp hA
        cases hB
    | cons s2 r2 =>
      cases r1 with
      | nil =>
        cases r2 with
        | nil =>
          rw [show joinSep "|" [s1] = s1 from rfl,
            show joinSep "|" [s2] = s2 from rfl] at heq
          rw [heq]
        | cons r2h r2t =>
          rw [show joinSep "|" [s1] = s1 from rfl, joinSep_cons_cons] at heq
          have hd := congrArg String.data heq
          simp only [String.data_append, hpd] at hd
          have hmem : '|' ∈ s1.data := by
            rw [hd]
            exact List.mem_append_left _ (List.mem_append_right _ (List.mem_cons_self _ _))
          exact absurd hmem (hg1 s1 (List.mem_cons_self _ _)).2
      | cons r1h r1t =>
        cases r2 with
        | nil =>
          rw [show joinSep "|" [s2] = s2 from rfl, joinSep_cons_cons] at heq
          have hd := congrArg String.data heq
          simp only [String.data_append, hpd] at hd
          have hmem : '|' ∈ s2.data := by
            rw [← hd]
            exact List.mem_append_left _ (List.mem_append_right _ (List.mem_cons_self _ _))
          exact absurd hmem (hg2 s2 (List.mem_cons_self _ _)).2
        | cons r2h r2t =>
          rw [joinSep_cons_cons, joinSep_cons_cons] at heq
          have hd := congrArg String.data heq
          simp only [String.data_append, hpd] at hd
          rw [List.append_assoc, List.append_assoc] at hd
          simp only [List.singleton_append] at hd
          obtain ⟨hh, ht⟩ := append_cons_left_inj
            (hg1 s1 (List.mem_cons_self _ _)).2 (hg2 s2 (List.mem_cons_self _ _)).2 hd
          have hs : s1 = s2 := String.ext hh
          have hrest : r1h :: r1t = r2h :: r2t := by
            apply ih (r2h :: r2t)
            · intro s hs'; exact hg1 s (List.mem_cons_of_mem _ hs')
            · intro s hs'; exact hg2 s (List.mem_cons_of_mem _ hs')
            · exact String.ext ht
          rw [hs, hrest]

theorem sortStrings_eq_of_perm {l1 l2 : List String} (h : l1.Perm l2) :
    sortStrings l1 = sortStrings l2 :=
  @List.eq_of_perm_of_sorted String strLeR _ _ _
    (((List.perm_insertionSort strLeR l1).trans h).trans
      (List.perm_insertionSort strLeR l2).symm)
    (List.sorted_insertionSort strLeR l1)
    (List.sorted_insertionSort strLeR l2)

theorem contentString_eq_of_perm {l1 l2 : List TranslationItem} (h : l1.Perm l2) :
    contentString l1 = contentString l2 := by
  unfold contentString
  rw [sortStrings_eq_of_perm (h.map encodeItem)]

theorem perm_of_encode_perm :
    ∀ (l1 l2 : List TranslationItem), (∀ i ∈ l1, GoodItem i) →
      (∀ i ∈ l2, GoodItem i) →
      (l1.map encodeItem).Perm (l2.map encodeItem) → l1.Perm l2 := by
  intro l1
  induction l1 with
  | nil =>
    intro l2 _ _ hp
    have : l2.map encodeItem = [] := hp.symm.eq_nil
    cases l2 with
    | nil => exact List.Perm.refl _
    | cons a l => cases this
  | cons i t ih =>
    intro l2 hg1 hg2 hp
    have hmem : encodeItem i ∈ l2.map encodeItem := by
      apply hp.mem_iff.mp
      simp
    obtain ⟨j, hj, hje⟩ := List.mem_map.mp hmem
    have hij : j = i :=
      encodeItem_inj_good (hg2 j hj) (hg1 i (List.mem_cons_self _ _)) hje
    subst hij
    have hl2 : l2.Perm (j :: l2.erase j) := List.perm_cons_erase hj
    have hmap : (l2.map encodeItem).Perm (encodeItem j :: (l2.erase j).map encodeItem) := by
      have := hl2.map encodeItem
      simpa using this
    have htail : (t.map encodeItem).Perm ((l2.erase j).map encodeItem) :=
      List.Perm.cons_inv (hp.trans hmap)
    have hgt : ∀ x ∈ t, GoodItem x := fun x hx => hg1 x (List.mem_cons_of_mem _ hx)
    have hge : ∀ x ∈ l2.erase j, GoodItem x := fun x hx =>
      hg2 x (List.mem_of_mem_erase hx)
    exact ((ih (l2.erase j) hgt hge htail).cons j).trans hl2.symm

/-- C5: for every list of content items and every permutation of it, the
view fingerprint computed by the coordinator is identical — the encoded
entries are sorted before joining and digesting, so the digest input, and
hence the digest, does not depend on the caller-supplied order. -/
theorem C5_fingerprint_order_invariant (hash : String → String)
    (items1 items2 : List TranslationItem) (h : items1.Perm items2) :
    fingerprintView hash items1 = fingerprintView hash items2 := by
  unfold fingerprintView
  rw [contentString_eq_of_perm h]

theorem C5_fingerprint_order_invariant_witness :
    (([⟨"a", "1", "x"⟩, ⟨"b", "2", "y"⟩] : List TranslationItem).Perm
        [⟨"b", "2", "y"⟩, ⟨"a", "1", "x"⟩]) ∧
      fingerprintView hash0 [⟨"a", "1", "x"⟩, ⟨"b", "2", "y"⟩] =
        fingerprintView hash0 [⟨"b", "2", "y"⟩, ⟨"a", "1", "x"⟩] :=
  ⟨by decide, C5_fingerprint_order_invariant hash0 _ _ (by decide)⟩

/-- C6 (counterexample): the fingerprint encoding joins `type:id:text`
entries with `|` without escaping either separator, so it is not injective
on item multisets. Changing the single item at index 1's `text` from
`"d|a:b:c"` to `"c|a:b:d"` — one edit of the "change one item's text"
class, identity fields untouched — yields a different item list (not even
a permutation of the original) with the same pre-digest content string,
hence the same fingerprint for every digest function. -/
theorem C6_counterexample :
    (([⟨"a", "b", "c|a:b:d|a:b:c"⟩, ⟨"a", "b", "d|a:b:c"⟩] : List TranslationItem).set 1
        ⟨"a", "b", "c|a:b:d"⟩ =
      [⟨"a", "b", "c|a:b:d|a:b:c"⟩, ⟨"a", "b", "c|a:b:d"⟩]) ∧
    ¬ ([⟨"a", "b", "c|a:b:d|a:b:c"⟩, ⟨"a", "b", "d|a:b:c"⟩] : List TranslationItem).Perm
        [⟨"a", "b", "c|a:b:d|a:b:c"⟩, ⟨"a", "b", "c|a:b:d"⟩] ∧
    contentString [⟨"a", "b", "c|a:b:d|a:b:c"⟩, ⟨"a", "b", "d|a:b:c"⟩] =
      contentString [⟨"a", "b", "c|a:b:d|a:b:c"⟩, ⟨"a", "b", "c|a:b:d"⟩] ∧
    fingerprintView hash0 [⟨"a", "b", "c|a:b:d|a:b:c"⟩, ⟨"a", "b", "d|a:b:c"⟩] =
      fingerprintView hash0 [⟨"a", "b", "c|a:b:d|a:b:c"⟩, ⟨"a", "b", "c|a:b:d"⟩] :=
  ⟨by decide, by decide, by decide, by decide⟩

/-- C6 (amended): restricted to items whose identity fields contain no `:`
and whose fields contain no `|` — a restriction the source neither
enforces nor documents — the pre-digest content string determines the item
multiset: two item lists with equal content strings are permutations of
each other. Consequently, under that restriction, changing one item's
text, adding an item, or removing an item changes the pre-digest string
(the digest itself then changes except for collisions of the truncated
hash, which no code rules out). -/
theorem C6_content_string_injective_on_good
    (l1 l2 : List TranslationItem) (hg1 : ∀ i ∈ l1, GoodItem i)
    (hg2 : ∀ i ∈ l2, GoodItem i) (heq : contentString l1 = contentString l2) :
    l1.Perm l2 := by
  unfold contentString at heq
  have hs : sortStrings (l1.map encodeItem) = sortStrings (l2.map encodeItem) := by
    apply joinSep_pipe_inj _ _ _ _ heq
    · intro s hsm
      unfold sortStrings at hsm
      have hm : s ∈ l1.map encodeItem := (List.mem_insertionSort strLeR).mp hsm
      obtain ⟨i, hi, rfl⟩ := List.mem_map.mp hm
      exact ⟨encodeItem_data_ne_nil i, pipe_not_mem_encode (hg1 i hi)⟩
    · intro s hsm
      unfold sortStrings at hsm
      have hm : s ∈ l2.map encodeItem := (List.mem_insertionSort strLeR).mp hsm
      obtain ⟨i, hi, rfl⟩ := List.mem_map.mp hm
      exact ⟨encodeItem_data_ne_nil i, pipe_not_mem_encode (hg2 i hi)⟩
  have hperm : (l1.map encodeItem).Perm (l2.map encodeItem) := by
    have p1 := List.perm_insertionSort strLeR (l1.map encodeItem)
    have p2 := List.perm_insertionSort strLeR (l2.map encodeItem)
    unfold sortStrings at hs
    rw [hs] at p1
    exact p1.symm.trans p2
  exact perm_of_encode_perm l1 l2 hg1 hg2 hperm

theorem C6_content_string_injective_on_good_witness :
    ([⟨"a", "1", "x"⟩, ⟨"b", "2", "y"⟩] : List TranslationItem).Perm
      [⟨"b", "2", "y"⟩, ⟨"a", "1", "x"⟩] :=
  C6_content_string_injective_on_good _ _ (by decide) (by decide) (by decide)

/-- C3 (counterexample): instantiated at a digest with SHA-256's output
length, the source hash the view coordinator stores (the full digest) and
the one the batch engine computes for the same text (truncated to 16
characters) differ. -/
theorem C3_counterexample :
    viewSourceHash digest64stub "Hello" ≠ cliSourceHash digest64stub "Hello" := by
  decide

/-- C3 (amended): both sides digest the text with the same hash function,
but the view coordinator stores the full digest
(`crypto.SHA256(item.text).toString()`) while the batch engine truncates
to a 16-character prefix (`.digest('hex').substring(0, 16)`). For every
digest whose output has SHA-256's 64 hex characters, the batch hash is the
16-character prefix of the view hash and the two are never equal — so the
batch engine's gap check always sees view-written records as stale. -/
theorem C3_hash_truncation_mismatch (hash : String → String)
    (hlen : ∀ s, (hash s).data.length = 64) (s : String) :
    cliSourceHash hash s = strTake 16 (viewSourceHash hash s) ∧
      viewSourceHash hash s ≠ cliSourceHash hash s := by
  constructor
  · rfl
  · intro heq
    have hd : (hash s).data.length = ((hash s).data.take 16).length :=
      congrArg (fun t => t.data.length) heq
    rw [List.length_take] at hd
    have := hlen s
    omega

theorem C3_hash_truncation_mismatch_witness :
    viewSourceHash digest64stub "x" ≠ cliSourceHash digest64stub "x" :=
  (C3_hash_truncation_mismatch digest64stub
    (fun s => by
      show (digest64stub s).data.length = 64
      simp [digest64stub]) "x").2

/-- C7: whenever the active locale equals the default locale or the item
list is empty, a sync cycle performs no store read, no provider call and
no save, and settles with an empty translation map; `getTranslation` then
returns the caller's fallback for every key — at the default locale it
does so regardless of the cache's contents. -/
theorem C7_default_locale_bypass (hash : String → String)
    (items : List TranslationItem) (locale defaultLocale : String)
    (metadata : Option ViewTranslationMetadata) (dbRows : List CachedRow)
    (provider : List TranslationItem → String → String → List String)
    (h : locale = defaultLocale ∨ items = []) :
    translateViewCycle hash items locale defaultLocale metadata dbRows provider =
        ⟨[], 0, 0, [], none⟩ ∧
      (∀ ct ci fb, getTranslation locale defaultLocale
        (translateViewCycle hash items locale defaultLocale metadata dbRows
          provider).cache ct ci fb = fb) ∧
      (locale = defaultLocale → ∀ cache ct ci fb,
        getTranslation locale defaultLocale cache ct ci fb = fb) := by
  have hcy : translateViewCycle hash items locale defaultLocale metadata dbRows
      provider = ⟨[], 0, 0, [], none⟩ := by
    unfold translateViewCycle
    rw [if_pos h]
  refine ⟨hcy, ?_, ?_⟩
  · intro ct ci fb
    rw [hcy]
    unfold getTranslation
    split
    · rfl
    · rfl
  · intro hld cache ct ci fb
    unfold getTranslation
    rw [if_pos hld]

theorem C7_default_locale_bypass_witness :
    translateViewCycle hash0 [⟨"a", "1", "x"⟩] "en" "en" none [] (fun _ _ _ => []) =
        ⟨[], 0, 0, [], none⟩ ∧
      getTranslation "en" "en"
        (translateViewCycle hash0 [⟨"a", "1", "x"⟩] "en" "en" none []
          (fun _ _ _ => [])).cache "a" "1" "orig" = "orig" ∧
      getTranslation "en" "en" [("a:1", some "cached")] "a" "1" "orig" = "orig" :=
  ⟨(C7_default_locale_bypass hash0 [⟨"a", "1", "x"⟩] "en" "en" none []
      (fun _ _ _ => []) (Or.inl rfl)).1,
    (C7_default_locale_bypass hash0 [⟨"a", "1", "x"⟩] "en" "en" none []
      (fun _ _ _ => []) (Or.inl rfl)).2.1 "a" "1" "orig",
    (C7_default_locale_bypass hash0 [⟨"a", "1", "x"⟩] "en" "en" none []
      (fun _ _ _ => []) (Or.inl rfl)).2.2 rfl [("a:1", some "cached")] "a" "1" "orig"⟩

/-- C10: away from the default locale, a cache entry holding the empty
string is served as the fallback — `cache[key] || fallback` treats an
empty stored translation exactly like a missing one. -/
theorem C10_empty_cached_translation_falls_back (locale defaultLocale : String)
    (cache : List (String × Option String)) (ct ci fb : String)
    (hne : locale ≠ defaultLocale)
    (hc : jsMapGet cache (ct ++ ":" ++ ci) = some (some "")) :
    getTranslation locale defaultLocale cache ct ci fb = fb := by
  unfold getTranslation
  rw [if_neg hne, hc]
  rfl

theorem C10_empty_cached_translation_falls_back_witness :
    getTranslation "fr" "en" [("p:1", some "")] "p" "1" "orig" = "orig" :=
  C10_empty_cached_translation_falls_back "fr" "en" [("p:1", some "")] "p" "1"
    "orig" (by decide) (by decide)

/-- C2 (evaluation at the failing input): after a switch from locale
`"fr"` to locale `"de"` (default `"en"`) with a nonempty item list, the
effect's synchronous prefix leaves the previous locale's cache map in
place, and `getTranslation` serves the French translation `"Bonjour"`
under the new locale `"de"` instead of the fallback — the coordinator does
not clear the cache before starting the new locale's cycle. -/
theorem C2_stale_locale_cache_served :
    effectSyncPrefixCache "de" "en" [⟨"product_title", "1", "Hello"⟩]
        [("product_title:1", some "Bonjour")] =
      [("product_title:1", some "Bonjour")] ∧
    getTranslation "de" "en"
        (effectSyncPrefixCache "de" "en" [⟨"product_title", "1", "Hello"⟩]
          [("product_title:1", some "Bonjour")])
        "product_title" "1" "Hello" = "Bonjour" :=
  ⟨by decide, by decide⟩

/-- C1 (counterexample): the view coordinator's sync cycle does not treat
a hash-mismatched record as needing re-translation. With one item whose
current text hashes to `"#Hello"` and a stored record whose `source_hash`
is `"0123"` (a mismatch), the cycle classifies nothing as uncached, makes
no provider call, saves nothing, and serves the stale stored
translation. -/
theorem C1_counterexample :
    hash0 "Hello" ≠ "0123" ∧
    viewUncached [⟨"product_title", "1", "Hello"⟩]
        [⟨"product_title", "1", "Bonjour", "0123"⟩] = [] ∧
    (translateViewCycle hash0 [⟨"product_title", "1", "Hello"⟩] "fr" "en" none
        [⟨"product_title", "1", "Bonjour", "0123"⟩]
        (fun _ _ _ => [])).providerCalls = 0 ∧
    (translateViewCycle hash0 [⟨"product_title", "1", "Hello"⟩] "fr" "en" none
        [⟨"product_title", "1", "Bonjour", "0123"⟩] (fun _ _ _ => [])).saved = [] ∧
    (translateViewCycle hash0 [⟨"product_title", "1", "Hello"⟩] "fr" "en" none
        [⟨"product_title", "1", "Bonjour", "0123"⟩] (fun _ _ _ => [])).cache =
      [("product_title:1", some "Bonjour")] :=
  ⟨by decide, by decide, by decide, by decide, by decide⟩

/-- C1 (amended): only the batch engine's gap finding treats a stored
record whose `source_hash` differs from the freshly computed hash as
needing re-translation — such an item becomes a gap for every candidate
locale. The view coordinator's partition instead depends only on the
record's key and `translated_text`: it is invariant under arbitrary
rewriting of the stored hashes. -/
theorem C1_hash_mismatch_retranslation :
    (∀ (content : List DiscoveredContent) (locales : List String)
      (store : List StoreRow) (targetLocale : Option String)
      (item : DiscoveredContent), item ∈ content →
      (∀ c, (gapQueryRows content locales store targetLocale).find?
          (fun (c : CachedRow) => c.content_type == item.contentType &&
            c.content_id == item.contentId) = some c →
        c.source_hash ≠ item.sourceHash) →
      targetLocalesOf locales targetLocale ≠ [] →
      (⟨item.contentType, item.contentId, item.text, item.sourceHash,
          targetLocalesOf locales targetLocale⟩ : TranslationGap) ∈
        findTranslationGaps content locales store targetLocale) ∧
    (∀ (items : List TranslationItem) (rows : List CachedRow)
      (rehash : CachedRow → String),
      viewUncached items (rows.map (fun r =>
        ⟨r.content_type, r.content_id, r.translated_text, rehash r⟩)) =
        viewUncached items rows) := by
  constructor
  · intro content locales store targetLocale item hmem hhash hne
    unfold findTranslationGaps
    apply List.mem_filterMap.mpr
    refine ⟨item, hmem, ?_⟩
    have hfilter : (targetLocalesOf locales targetLocale).filter (fun _loc =>
        match (gapQueryRows content locales store targetLocale).find?
            (fun (c : CachedRow) => c.content_type == item.contentType &&
              c.content_id == item.contentId) with
        | none => true
        | some c => !(c.source_hash == item.sourceHash)) =
        targetLocalesOf locales targetLocale := by
      apply List.filter_eq_self.mpr
      intro a _
      cases hfind : (gapQueryRows content locales store targetLocale).find?
          (fun (c : CachedRow) => c.content_type == item.contentType &&
            c.content_id == item.contentId) with
      | none => simp
      | some c =>
        have hne2 := hhash c hfind
        simp [hne2]
    simp only [hfilter]
    rw [if_neg hne]
  · intro items rows rehash
    unfold viewUncached rowEntries
    rw [List.map_map]
    rfl

theorem C1_hash_mismatch_retranslation_witness :
    ((⟨"p", "1", "Hello", "abcd", ["fr", "de"]⟩ : TranslationGap) ∈
      findTranslationGaps [⟨"p", "1", "Hello", "abcd"⟩] ["fr", "de"]
        [⟨"p", "1", "fr", "Old", "Vieux", "stale"⟩] none) ∧
    viewUncached [⟨"p", "1", "Hello"⟩]
        ([⟨"p", "1", "Bonjour", "h1"⟩].map (fun (r : CachedRow) =>
          (⟨r.content_type, r.content_id, r.translated_text, "rehashed"⟩ : CachedRow))) =
      viewUncached [⟨"p", "1", "Hello"⟩] [⟨"p", "1", "Bonjour", "h1"⟩] :=
  ⟨C1_hash_mismatch_retranslation.1 [⟨"p", "1", "Hello", "abcd"⟩] ["fr", "de"]
      [⟨"p", "1", "fr", "Old", "Vieux", "stale"⟩] none ⟨"p", "1", "Hello", "abcd"⟩
      (by decide)
      (by
        intro c hc
        have hfind : (gapQueryRows [⟨"p", "1", "Hello", "abcd"⟩] ["fr", "de"]
            [⟨"p", "1", "fr", "Old", "Vieux", "stale"⟩] none).find?
            (fun (c : CachedRow) => c.content_type == "p" && c.content_id == "1") =
            some ⟨"p", "1", "Vieux", "stale"⟩ := by decide
        have h2 : some c = some (⟨"p", "1", "Vieux", "stale"⟩ : CachedRow) :=
          hc.symm.trans hfind
        injection h2 with h3
        rw [h3]
        decide)
      (by decide),
    C1_hash_mismatch_retranslation.2 [⟨"p", "1", "Hello"⟩]
      [⟨"p", "1", "Bonjour", "h1"⟩] (fun _ => "rehashed")⟩

/-- C4 (counterexample): a provider returning zero strings for a
one-item batch is not treated as an error by either caller. The CLI batch
run completes with `ok 0` and persists a record whose `translated_text` is
`undefined` (`none`); the view cycle likewise persists such a record while
completing its cycle normally. -/
theorem C4_counterexample :
    (cliTranslateBatch [⟨"p", "1", "Hello", "abcd", ["fr"]⟩] "fr" "en" 20
        (fun _ _ _ => (Except.ok [] : Except String (List String)))).outcome =
      Except.ok 0 ∧
    (cliTranslateBatch [⟨"p", "1", "Hello", "abcd", ["fr"]⟩] "fr" "en" 20
        (fun _ _ _ => (Except.ok [] : Except String (List String)))).writes =
      [⟨"p", "1", "fr", "Hello", none, "abcd"⟩] ∧
    (translateViewCycle hash0 [⟨"p", "1", "Hello"⟩] "fr" "en" none []
        (fun _ _ _ => [])).saved =
      [⟨"p", "1", "fr", "Hello", none, hash0 "Hello"⟩] ∧
    (translateViewCycle hash0 [⟨"p", "1", "Hello"⟩] "fr" "en" none []
        (fun _ _ _ => [])).providerCalls = 1 :=
  ⟨rfl, rfl, rfl, rfl⟩

/-- C4 (amended): neither caller checks the provider's returned count.
The CLI batch loop pairs strings to items positionally: a single batch
always succeeds with `ok translations.length`, saves exactly one record
per item of the batch, and the record at index `idx` carries
`translations[idx]` — which is `undefined` (`none`) whenever the provider
returned at most `idx` strings. No `ProviderError` arises from a count
mismatch. -/
theorem C4_silent_positional_zip {ε : Type}
    (b : List TranslationGap) (ts : List String) (locale sourceLocale : String)
    (idx : Nat) (hidx : idx < b.length) :
    (cliRunBatches (fun _ _ _ => (Except.ok ts : Except ε (List String)))
        locale sourceLocale [b] 0 [] 0).outcome = Except.ok ts.length ∧
    (cliRunBatches (fun _ _ _ => (Except.ok ts : Except ε (List String)))
        locale sourceLocale [b] 0 [] 0).writes.length = b.length ∧
    (cliRunBatches (fun _ _ _ => (Except.ok ts : Except ε (List String)))
        locale sourceLocale [b] 0 [] 0).writes[idx]? =
      some ⟨(b.get ⟨idx, hidx⟩).contentType, (b.get ⟨idx, hidx⟩).contentId,
        locale, (b.get ⟨idx, hidx⟩).text, ts[idx]?,
        (b.get ⟨idx, hidx⟩).sourceHash⟩ ∧
    (ts.length ≤ idx → ts[idx]? = none) := by
  refine ⟨?_, ?_, ?_, ?_⟩
  · simp [cliRunBatches]
  · simp [cliRunBatches, mkCliSaveRecords, List.length_mapIdx]
  · simp only [cliRunBatches, List.nil_append]
    rw [mkCliSaveRecords, List.getElem?_mapIdx]
    rw [List.getElem?_eq_getElem hidx]
    simp [List.get_eq_getElem]
  · intro h
    exact List.getElem?_eq_none h

theorem C4_silent_positional_zip_witness :
    (cliRunBatches (fun _ _ _ => (Except.ok [] : Except String (List String)))
        "fr" "en" [[⟨"p", "1", "Hello", "abcd", ["fr"]⟩]] 0 [] 0).outcome =
      Except.ok 0 ∧
    (cliRunBatches (fun _ _ _ => (Except.ok [] : Except String (List String)))
        "fr" "en" [[⟨"p", "1", "Hello", "abcd", ["fr"]⟩]] 0 [] 0).writes[0]? =
      some ⟨"p", "1", "fr", "Hello", none, "abcd"⟩ :=
  ⟨(C4_silent_positional_zip [⟨"p", "1", "Hello", "abcd", ["fr"]⟩] [] "fr" "en" 0
      (by decide)).1,
    (C4_silent_positional_zip [⟨"p", "1", "Hello", "abcd", ["fr"]⟩] [] "fr" "en" 0
      (by decide)).2.2.1⟩

theorem cliRunBatches_append_ok {ε : Type}
    (provider : List TranslationItem → String → String → Except ε (List String))
    (locale sourceLocale : String) :
    ∀ (pre rest : List (List TranslationGap)) (total : Nat)
      (writes : List SavedRecord) (calls : Nat),
      (∀ p ∈ pre, ∃ ts, provider (p.map toItem) sourceLocale locale = Except.ok ts) →
      ∃ total2 calls2,
        cliRunBatches provider locale sourceLocale (pre ++ rest) total writes calls =
          cliRunBatches provider locale sourceLocale rest total2
            (writes ++ (pre.map (savedOfBatch provider locale sourceLocale)).join)
            calls2 := by
  intro pre
  induction pre with
  | nil =>
    intro rest total writes calls _
    exact ⟨total, calls, by simp⟩
  | cons p pre ih =>
    intro rest total writes calls hok
    obtain ⟨ts, hts⟩ := hok p (List.mem_cons_self _ _)
    have hsb : savedOfBatch provider locale sourceLocale p =
        mkCliSaveRecords p ts locale := by
      unfold savedOfBatch
      rw [hts]
    have hstep : cliRunBatches provider locale sourceLocale ((p :: pre) ++ rest)
        total writes calls =
        cliRunBatches provider locale sourceLocale (pre ++ rest) (total + ts.length)
          (writes ++ mkCliSaveRecords p ts locale) (calls + 1) := by
      simp only [List.cons_append, cliRunBatches, hts]
      rfl
    obtain ⟨t2, c2, heq⟩ := ih rest (total + ts.length)
      (writes ++ mkCliSaveRecords p ts locale) (calls + 1)
      (fun q hq => hok q (List.mem_cons_of_mem _ hq))
    refine ⟨t2, c2, ?_⟩
    rw [hstep, heq]
    congr 1
    have hj : ((p :: pre).map (savedOfBatch provider locale sourceLocale)).join =
        savedOfBatch provider locale sourceLocale p ++
          (pre.map (savedOfBatch provider locale sourceLocale)).join := rfl
    rw [hj, hsb, List.append_assoc]

/-- C8: when the provider call for one batch fails after every earlier
batch succeeded, the per-locale batch loop aborts with that error, and the
records it had already saved for the earlier batches are exactly what the
loop hands the store — partial progress is returned, not rolled back. -/
theorem C8_batch_abort_preserves_saved {ε : Type}
    (provider : List TranslationItem → String → String → Except ε (List String))
    (locale sourceLocale : String)
    (pre post : List (List TranslationGap)) (b : List TranslationGap) (e : ε)
    (hok : ∀ p ∈ pre, ∃ ts, provider (p.map toItem) sourceLocale locale = Except.ok ts)
    (herr : provider (b.map toItem) sourceLocale locale = Except.error e) :
    (cliRunBatches provider locale sourceLocale (pre ++ b :: post) 0 [] 0).outcome =
        Except.error e ∧
      (cliRunBatches provider locale sourceLocale (pre ++ b :: post) 0 [] 0).writes =
        (pre.map (savedOfBatch provider locale sourceLocale)).join ∧
      ∀ p ∈ pre, ∀ r ∈ savedOfBatch provider locale sourceLocale p,
        r ∈ (cliRunBatches provider locale sourceLocale (pre ++ b :: post) 0 [] 0).writes := by
  obtain ⟨t2, c2, heq⟩ :=
    cliRunBatches_append_ok provider locale sourceLocale pre (b :: post) 0 [] 0 hok
  have hres : cliRunBatches provider locale sourceLocale (pre ++ b :: post) 0 [] 0 =
      ⟨Except.error e, (pre.map (savedOfBatch provider locale sourceLocale)).join,
        c2 + 1⟩ := by
    rw [heq]
    simp only [cliRunBatches, herr, List.nil_append]
  rw [hres]
  refine ⟨rfl, rfl, ?_⟩
  intro p hp r hr
  exact List.mem_join.mpr ⟨_, List.mem_map_of_mem _ hp, hr⟩

theorem C8_batch_abort_preserves_saved_witness :
    (cliRunBatches
        (fun items _ _ =>
          if items = [(⟨"p", "2", "B"⟩ : TranslationItem)] then
            (Except.error "boom" : Except String (List String))
          else Except.ok ["T"])
        "fr" "en"
        [[⟨"p", "1", "A", "h1", ["fr"]⟩], [⟨"p", "2", "B", "h2", ["fr"]⟩],
          [⟨"p", "3", "C", "h3", ["fr"]⟩]] 0 [] 0).outcome =
      Except.error "boom" ∧
    (cliRunBatches
        (fun items _ _ =>
          if items = [(⟨"p", "2", "B"⟩ : TranslationItem)] then
            (Except.error "boom" : Except String (List String))
          else Except.ok ["T"])
        "fr" "en"
        [[⟨"p", "1", "A", "h1", ["fr"]⟩], [⟨"p", "2", "B", "h2", ["fr"]⟩],
          [⟨"p", "3", "C", "h3", ["fr"]⟩]] 0 [] 0).writes =
      [⟨"p", "1", "fr", "A", some "T", "h1"⟩] :=
  ⟨(C8_batch_abort_preserves_saved
      (fun items _ _ =>
        if items = [(⟨"p", "2", "B"⟩ : TranslationItem)] then
          (Except.error "boom" : Except String (List String))
        else Except.ok ["T"])
      "fr" "en" [[⟨"p", "1", "A", "h1", ["fr"]⟩]] [[⟨"p", "3", "C", "h3", ["fr"]⟩]]
      [⟨"p", "2", "B", "h2", ["fr"]⟩] "boom"
      (by
        intro p hp
        simp only [List.mem_singleton] at hp
        subst hp
        exact ⟨["T"], rfl⟩)
      rfl).1,
    (C8_batch_abort_preserves_saved
      (fun items _ _ =>
        if items = [(⟨"p", "2", "B"⟩ : TranslationItem)] then
          (Except.error "boom" : Except String (List String))
        else Except.ok ["T"])
      "fr" "en" [[⟨"p", "1", "A", "h1", ["fr"]⟩]] [[⟨"p", "3", "C", "h3", ["fr"]⟩]]
      [⟨"p", "2", "B", "h2", ["fr"]⟩] "boom"
      (by
        intro p hp
        simp only [List.mem_singleton] at hp
        subst hp
        exact ⟨["T"], rfl⟩)
      rfl).2.1⟩

/-- C9: a dry run makes no provider call and no store write — the run
reports success with zero provider calls and an empty write list for every
configuration, content set and store — and every `(locale, count)` pair it
reports equals the number of gaps `findTranslationGaps` computes for that
locale; when discovery and gap finding are nonempty, the report covers
exactly the target locales. -/
theorem C9_dry_run_no_side_effects {ε : Type} (config : RunConfig)
    (options : RunOptions) (allItems : List TranslationItem) (store : List StoreRow)
    (provider : List TranslationItem → String → String → Except ε (List String))
    (hash : String → String) (hdry : options.dryRun = true) :
    (runTranslation config options allItems store provider hash).providerCalls = 0 ∧
      (runTranslation config options allItems store provider hash).writes = [] ∧
      (runTranslation config options allItems store provider hash).outcome =
        Except.ok () ∧
      (∀ l n,
        (l, n) ∈ (runTranslation config options allItems store provider hash).dryRunReport →
        n = ((findTranslationGaps (discoverContent config.excludeTypes allItems hash)
            config.locales store options.locale).filter
          (fun g => decide (l ∈ g.missingLocales))).length) ∧
      (discoverContent config.excludeTypes allItems hash ≠ [] →
        findTranslationGaps (discoverContent config.excludeTypes allItems hash)
            config.locales store options.locale ≠ [] →
        (runTranslation config options allItems store provider hash).dryRunReport =
          (targetLocalesOf config.locales options.locale).map (fun l =>
            (l, ((findTranslationGaps (discoverContent config.excludeTypes allItems hash)
              config.locales store options.locale).filter
                (fun g => decide (l ∈ g.missingLocales))).length))) := by
  simp only [runTranslation]
  by_cases hc : discoverContent config.excludeTypes allItems hash = []
  · rw [if_pos hc]
    refine ⟨rfl, rfl, rfl, ?_, ?_⟩
    · intro l n hmem
      simp at hmem
    · intro hc2 _
      exact absurd hc hc2
  · rw [if_neg hc]
    by_cases hg : findTranslationGaps (discoverContent config.excludeTypes allItems hash)
        config.locales store options.locale = []
    · rw [if_pos hg]
      refine ⟨rfl, rfl, rfl, ?_, ?_⟩
      · intro l n hmem
        simp at hmem
      · intro _ hg2
        exact absurd hg hg2
    · rw [if_neg hg, if_pos hdry]
      refine ⟨rfl, rfl, rfl, ?_, ?_⟩
      · intro l n hmem
        obtain ⟨l2, _, heq⟩ := List.mem_map.mp hmem
        injection heq with ha hb
        subst ha
        exact hb.symm
      · intro _ _
        rfl

theorem C9_dry_run_no_side_effects_witness :
    (runTranslation ⟨["fr"], [], none, none⟩ ⟨true, none⟩ [⟨"p", "1", "Hello"⟩] []
        (fun _ _ _ => (Except.ok [] : Except String (List String)))
        hash0).dryRunReport = [("fr", 1)] ∧
      (runTranslation ⟨["fr"], [], none, none⟩ ⟨true, none⟩ [⟨"p", "1", "Hello"⟩] []
        (fun _ _ _ => (Except.ok [] : Except String (List String)))
        hash0).providerCalls = 0 ∧
      (runTranslation ⟨["fr"], [], none, none⟩ ⟨true, none⟩ [⟨"p", "1", "Hello"⟩] []
        (fun _ _ _ => (Except.ok [] : Except String (List String)))
        hash0).writes = [] :=
  ⟨(C9_dry_run_no_side_effects ⟨["fr"], [], none, none⟩ ⟨true, none⟩
      [⟨"p", "1", "Hello"⟩] []
      (fun _ _ _ => (Except.ok [] : Except String (List String))) hash0
      rfl).2.2.2.2 (by decide) (by decide),
    (C9_dry_run_no_side_effects ⟨["fr"], [], none, none⟩ ⟨true, none⟩
      [⟨"p", "1", "Hello"⟩] []
      (fun _ _ _ => (Except.ok [] : Except String (List String))) hash0 rfl).1,
    (C9_dry_run_no_side_effects ⟨["fr"], [], none, none⟩ ⟨true, none⟩
      [⟨"p", "1", "Hello"⟩] []
      (fun _ _ _ => (Except.ok [] : Except String (List String))) hash0 rfl).2.1⟩
